import Mathlib

/-!
Verification of the RAG subsystem of the Mental-Health-Assistant repository.

This file is a shallow embedding of src/utils/rag_manager.py (class RAGManager).
Python strings are modelled as lists of characters, floating-point distances as
rationals, fallible operations as Except or Bool results, and the ambient
effects (the sentence-transformers encoder, the langchain text splitter, the
documents directory, disk I/O success) as explicit function and flag
parameters. Every definition follows the corresponding Python code line by
line; deviations are noted in comments.
-/

/-- Python strings are modelled as lists of characters. -/
abbrev Str := List Char

/-- Python str.strip(): remove leading and trailing whitespace. -/
def pyStrip (s : Str) : Str :=
  ((s.dropWhile Char.isWhitespace).reverse.dropWhile Char.isWhitespace).reverse

/-- A langchain Document as produced by RAGManager.load_documents: raw text
plus the source metadata written at rag_manager.py lines 144-151. -/
structure Document where
  page_content : Str
  source : String
  source_file : String
  file_type : String
deriving DecidableEq

/-- One file of the documents directory, as seen by load_documents.
readable models whether open/read succeeds (the per-file try/except at
lines 139-156). -/
structure FileEntry where
  path : String
  name : String
  ext : String
  content : Str
  readable : Bool
deriving DecidableEq

/-- The per-chunk metadata dict: the base dict copied from the source document
(or the caller-supplied dict in add_document_from_text) plus the chunk_id and
chunk_size keys written by the update calls at lines 190-193 and 400-403. -/
structure ChunkMeta where
  base : List (String × String)
  chunk_id : Nat
  chunk_size : Nat
deriving DecidableEq

/-- One element of the list returned by search_relevant_content
(rag_manager.py lines 284-289). -/
structure QueryResult where
  content : Str
  metadata : ChunkMeta
  relevance_score : ℚ
  source : String
deriving DecidableEq

/-- A faiss.IndexFlatL2: a fixed dimensionality and the stored vectors in
insertion order. ntotal is the length of the vector list. -/
structure FaissIndex where
  dim : Nat
  vectors : List (List ℚ)
deriving DecidableEq

/-- index.ntotal. -/
def FaissIndex.count (i : FaissIndex) : Nat := i.vectors.length

/-- faiss.IndexFlatL2(dimension): a fresh empty index. -/
def IndexFlatL2 (dimension : Nat) : FaissIndex := { dim := dimension, vectors := [] }

/-- index.add(embeddings): appends the vectors; raises (modelled as none) when
the batch does not match the dimensionality of the index. -/
def FaissIndex.add (i : FaissIndex) (vs : List (List ℚ)) : Option FaissIndex :=
  if vs.all fun v => v.length == i.dim then some { i with vectors := i.vectors ++ vs }
  else none

/-- The in-memory state of a RAGManager: self.model (loaded or not),
self.index, self.documents, self.metadata.  documents and metadata are None
until an index is loaded or built. -/
structure MemState where
  model : Bool
  index : Option FaissIndex
  documents : Option (List Str)
  metadata : Option (List ChunkMeta)
deriving DecidableEq

/-- The index directory on disk: the three artifact files index.faiss,
documents.pkl and metadata.pkl.  The outer Option is file existence; for the
two pickle files the inner Option is the pickled value, which is itself None
when the corresponding field was None at save time. -/
structure Disk where
  index_file : Option FaissIndex
  docs_file : Option (Option (List Str))
  meta_file : Option (Option (List ChunkMeta))
deriving DecidableEq

/-- Whether each of the three artifact writes in _save_index succeeds; a false
flag models an I/O error raised by that write. -/
structure SaveFlags where
  writeIndexOk : Bool
  writeDocsOk : Bool
  writeMetaOk : Bool
deriving DecidableEq

/-- Squared Euclidean distance, the metric of faiss.IndexFlatL2. -/
def l2sq (u v : List ℚ) : ℚ := ((u.zip v).map fun p => (p.1 - p.2) * (p.1 - p.2)).sum

/-- The largest finite float32, used by faiss to pad distances when the index
holds fewer than k vectors.  Written as an explicit rational: 2^128 - 2^104. -/
def FLT_MAX : ℚ := ⟨340282346638528859811704183484516925440, 1, by decide, by decide⟩

/-- The literal relevance threshold 1.2 passed by get_context_for_query at
rag_manager.py line 318, written as the exact rational 6/5. -/
def relevanceThreshold12 : ℚ := ⟨6, 5, by decide, by decide⟩

/-- Insert one (distance, label) pair into a list sorted by ascending
distance, after any equal distances. -/
def insertByDist (p : ℚ × Int) : List (ℚ × Int) → List (ℚ × Int)
  | [] => [p]
  | q :: rest => if p.1 < q.1 then p :: q :: rest else q :: insertByDist p rest

/-- index.search(query, k) of faiss.IndexFlatL2: exact nearest neighbours by
ascending squared L2 distance; when the index holds fewer than k vectors the
result is padded with label -1 and distance FLT_MAX. -/
def faissSearch (idx : FaissIndex) (q : List ℚ) (k : Nat) : List (ℚ × Int) :=
  let scored := idx.vectors.enum.map fun p => (l2sq q p.2, (p.1 : Int))
  let sorted := scored.foldl (fun acc p => insertByDist p acc) []
  sorted.take k ++ List.replicate (k - idx.vectors.length) (FLT_MAX, -1)

/-- Python list subscription l[i]: supports negative indices from the end;
out-of-range access raises (modelled as none). -/
def pyGet {α : Type} (l : List α) (i : Int) : Option α :=
  if 0 ≤ i then l[i.toNat]?
  else if -i ≤ (l.length : Int) then l[l.length - (-i).toNat]? else none

namespace RAGManager

/-- RAGManager._load_embeddings_model (rag_manager.py lines 79-88): if
self.model is already loaded this is a no-op; otherwise the
SentenceTransformer constructor runs, and on failure (mOk = false) the
exception is re-raised. -/
def _load_embeddings_model (mOk : Bool) (st : MemState) : Except Unit MemState :=
  if st.model then .ok st
  else if mOk then .ok { st with model := true } else .error ()

/-- RAGManager._load_or_initialize (rag_manager.py lines 90-119): if all three
artifact files exist, load them; any exception while loading (loadOk = false),
including the TypeError raised by the len() call at line 111 when the pickled
documents value is None, resets index, documents and metadata to None. -/
def _load_or_init (loadOk : Bool) (d : Disk) (st : MemState) : MemState :=
  match d.index_file, d.docs_file, d.meta_file with
  | some i, some ds, some ms =>
    if loadOk then
      match ds with
      | some dsl => { st with index := some i, documents := some dsl, metadata := ms }
      | none => { st with index := none, documents := none, metadata := none }
    else { st with index := none, documents := none, metadata := none }
  | _, _, _ => st

/-- The error raised by RAGManager.__init__ when the faiss /
sentence-transformers import failed. -/
inductive InitError where
  | importError
deriving DecidableEq

/-- RAGManager.__init__ (rag_manager.py lines 34-77): raises ImportError when
FAISS_AVAILABLE is false (lines 58-60); otherwise sets model, index, documents
and metadata to None and runs _load_or_initialize.  Directory creation and the
text-splitter construction carry no observable state beyond configuration and
are not modelled. -/
def __init__ (faiss_available : Bool) (loadOk : Bool) (d : Disk) : Except InitError MemState :=
  if faiss_available = false then .error .importError
  else .ok (_load_or_init loadOk d { model := false, index := none, documents := none, metadata := none })

/-- RAGManager.load_documents (rag_manager.py lines 121-159): returns [] when
the directory does not exist; otherwise collects, first for .md then for .txt,
every readable file whose content is non-empty after strip, with its source
metadata. -/
def load_documents (documents_dir_exists : Bool) (files : List FileEntry) : List Document :=
  if documents_dir_exists = false then []
  else
    ((files.filter fun f => f.ext = ".md") ++ (files.filter fun f => f.ext = ".txt")).filterMap
      fun f =>
        if f.readable = true ∧ pyStrip f.content ≠ [] then
          some { page_content := f.content, source := f.path, source_file := f.name,
                 file_type := f.ext }
        else none

/-- RAGManager._save_index (rag_manager.py lines 221-241): writes the three
artifacts in order index.faiss, documents.pkl, metadata.pkl; any exception
(index None at the write_index call, or a failed write per the SaveFlags) is
caught and only logged, leaving the writes made so far in place.  The method
never touches the in-memory state and never propagates the error. -/
def _save_index (w : SaveFlags) (st : MemState) (d : Disk) : Disk :=
  match st.index with
  | none => d
  | some i =>
    if w.writeIndexOk = false then d
    else
      let d1 : Disk := { d with index_file := some i }
      if w.writeDocsOk = false then d1
      else
        let d2 : Disk := { d1 with docs_file := some st.documents }
        if w.writeMetaOk = false then d2
        else { d2 with meta_file := some st.metadata }

/-- RAGManager.index_documents (rag_manager.py lines 161-219), parametrised by
the configured text splitter (split), the embedding model (enc), whether the
model loads (mOk), the documents directory contents, and the disk-write
outcomes.  Returns the reported Bool, the new memory, and the new disk. -/
def index_documents (split : Str → List Str) (enc : Str → List ℚ) (mOk : Bool)
    (documents_dir_exists : Bool) (files : List FileEntry) (w : SaveFlags)
    (st : MemState) (d : Disk) : Bool × MemState × Disk :=
  match _load_embeddings_model mOk st with
  | .error _ => (false, st, d)
  | .ok st1 =>
    let documents := load_documents documents_dir_exists files
    if documents.isEmpty then (false, st1, d)
    else
      let chunks := documents.flatMap fun doc => (split doc.page_content).map fun c => (c, doc)
      let texts := chunks.map Prod.fst
      let metadata_list := chunks.enum.map fun p =>
        ({ base := [("source", p.2.2.source), ("source_file", p.2.2.source_file),
                    ("file_type", p.2.2.file_type)],
           chunk_id := p.1, chunk_size := p.2.1.length } : ChunkMeta)
      match texts with
      | [] => (false, st1, d)
      | t0 :: _ =>
        let embeddings := texts.map enc
        let dimension := (enc t0).length
        match (IndexFlatL2 dimension).add embeddings with
        | none => (false, { st1 with index := some (IndexFlatL2 dimension) }, d)
        | some idx =>
          let st2 : MemState :=
            { st1 with
              index := some idx
              documents := some texts
              metadata := some metadata_list }
          (true, st2, _save_index w st2 d)

/-- The result-formatting loop of search_relevant_content (rag_manager.py
lines 280-289): keep the pairs with idx < len(documents) and distance below
the threshold; a failing subscription (metadata None, or an index out of range
for the Python lists) raises, modelled as error, which makes the enclosing
try/except return []. -/
def formatResults (documents : List Str) (mdata : Option (List ChunkMeta))
    (relevance_threshold : ℚ) : List (ℚ × Int) → Except Unit (List QueryResult)
  | [] => .ok []
  | (distance, idx) :: rest =>
    if idx < (documents.length : Int) ∧ distance < relevance_threshold then
      match pyGet documents idx, mdata with
      | some content, some ms =>
        match pyGet ms idx with
        | some md =>
          match formatResults documents mdata relevance_threshold rest with
          | .ok rs => .ok ({ content := content, metadata := md, relevance_score := distance,
                             source := (md.base.lookup "source_file").getD "unknown" } :: rs)
          | .error e => .error e
        | none => .error ()
      | _, _ => .error ()
    else formatResults documents mdata relevance_threshold rest

/-- The query enhancement of search_relevant_content (rag_manager.py lines
268-271): a truthy category other than General is prefixed to the query. -/
def enhance_query (category : Option Str) (query : Str) : Str :=
  match category with
  | some c => if c ≠ [] ∧ c ≠ "General".toList then c ++ ": ".toList ++ query else query
  | none => query

/-- RAGManager.search_relevant_content (rag_manager.py lines 243-296): returns
[] when self.index is None or self.documents is None or empty (the truthiness
test at line 260; a faiss index object is always truthy); otherwise loads the
model, optionally prefixes the category, embeds the query, searches, and
filters by the threshold.  Any exception inside the try returns []. -/
def search_relevant_content (enc : Str → List ℚ) (mOk : Bool) (st : MemState)
    (query : Str) (k : Nat) (category : Option Str) (relevance_threshold : ℚ) :
    List QueryResult × MemState :=
  match st.index, st.documents with
  | some idx, some (d0 :: drest) =>
    (match _load_embeddings_model mOk st with
     | .error _ => ([], st)
     | .ok st1 =>
       let query_embedding := enc (enhance_query category query)
       if query_embedding.length = idx.dim then
         match formatResults (d0 :: drest) st1.metadata relevance_threshold
             (faissSearch idx query_embedding k) with
         | .ok rs => (rs, st1)
         | .error _ => ([], st1)
       else ([], st1))
  | _, _ => ([], st)

/-- The string constants of get_context_for_query. -/
def header : Str := "Relevant information from the knowledge base:\n\n".toList

/-- The delimiter joining context parts (rag_manager.py line 345). -/
def delimiter : Str := "\n\n---\n\n".toList

/-- The truncation marker (rag_manager.py line 337). -/
def ellipsis : Str := "...".toList

/-- The context-assembly loop of get_context_for_query (rag_manager.py lines
326-342): add whole results while they fit; when the next result does not
fit, truncate and append it only if more than 100 characters of budget
remain, then stop. -/
def buildParts (max_context_length : Nat) (current_length : Nat) : List Str → List Str
  | [] => []
  | content :: rest =>
    if max_context_length < current_length + content.length then
      if 100 < max_context_length - current_length then
        [content.take (max_context_length - current_length) ++ ellipsis]
      else []
    else content :: buildParts max_context_length (current_length + content.length) rest

/-- Python str.join: interleave the separator between the parts. -/
def joinParts (sep : Str) : List Str → Str
  | [] => []
  | [p] => p
  | p :: rest => p ++ sep ++ joinParts sep rest

/-- RAGManager.get_context_for_query (rag_manager.py lines 298-350): search
with k = 3 and threshold 1.2, return "" when nothing qualifies, otherwise the
assembled context under the fixed header. -/
def get_context_for_query (enc : Str → List ℚ) (mOk : Bool) (st : MemState)
    (query : Str) (category : Option Str) (max_context_length : Nat) : Str × MemState :=
  let r := search_relevant_content enc mOk st query 3 category relevanceThreshold12
  if r.1.isEmpty then ([], r.2)
  else
    let context := joinParts delimiter
      (buildParts max_context_length 0 (r.1.map fun doc => pyStrip doc.content))
    if context.isEmpty then ([], r.2) else (header ++ context, r.2)

/-- The append loop of add_document_from_text (rag_manager.py lines 397-404):
each chunk text is appended to documents, then its metadata (with chunk_id =
len(documents) - 1 after the append) to metadata. -/
def appendLoop (base : List (String × String)) :
    List Str → List Str → List ChunkMeta → List Str × List ChunkMeta
  | [], ds, ms => (ds, ms)
  | c :: rest, ds, ms =>
    appendLoop base rest (ds ++ [c])
      (ms ++ [{ base := base, chunk_id := ds.length, chunk_size := c.length }])

/-- RAGManager.add_document_from_text (rag_manager.py lines 352-414): split
the text, return False on zero chunks, load the model, embed, create a fresh
empty index (and fresh empty documents/metadata lists) when none exists, add
the vectors, append texts and metadata, persist, return True.  Exceptions at
any step are caught and reported as False, leaving the state as mutated so
far. -/
def add_document_from_text (split : Str → List Str) (enc : Str → List ℚ) (mOk : Bool)
    (w : SaveFlags) (text : Str) (mdata : Option (List (String × String)))
    (st : MemState) (d : Disk) : Bool × MemState × Disk :=
  match split text with
  | [] => (false, st, d)
  | c0 :: crest =>
    match _load_embeddings_model mOk st with
    | .error _ => (false, st, d)
    | .ok st1 =>
      let chunks := c0 :: crest
      let new_embeddings := chunks.map enc
      let st2 :=
        match st1.index with
        | none =>
          { st1 with index := some (IndexFlatL2 (enc c0).length),
                     documents := some [], metadata := some [] }
        | some _ => st1
      match st2.index with
      | none => (false, st2, d)
      | some idx =>
        match idx.add new_embeddings with
        | none => (false, st2, d)
        | some idx2 =>
          let st3 := { st2 with index := some idx2 }
          match st3.documents with
          | none => (false, st3, d)
          | some ds =>
            match st3.metadata with
            | none => (false, { st3 with documents := some (ds ++ [c0]) }, d)
            | some ms =>
              let r := appendLoop (mdata.getD []) chunks ds ms
              let st4 := { st3 with documents := some r.1, metadata := some r.2 }
              (true, st4, _save_index w st4 d)

end RAGManager

/-- Co-indexing invariant of the spec data model: index, documents and
metadata all present, with ntotal equal to both list lengths. -/
def coIndexed (st : MemState) : Bool :=
  match st.index, st.documents, st.metadata with
  | some i, some ds, some ms => i.count == ds.length && ds.length == ms.length
  | _, _, _ => false

/-- Modelled from the spec: the chunker used by RAGManager is langchain
RecursiveCharacterTextSplitter (constructed at rag_manager.py lines 69-74),
whose code is not part of this repository.  Following spec section 4.1, for
text containing none of the preferred separators the splitter cuts hard at
chunk_size characters per chunk and each chunk after the first begins
chunk_overlap characters before the end of the previous one, until the rest
fits in one chunk.  The first Nat argument is structural fuel; the remaining
text length always suffices. -/
def hardChunkGo (chunk_size chunk_overlap : Nat) : Nat → Str → List Str
  | 0, text => [text]
  | fuel + 1, text =>
    if text.length ≤ chunk_size ∨ chunk_size ≤ chunk_overlap then [text]
    else text.take chunk_size ::
      hardChunkGo chunk_size chunk_overlap fuel (text.drop (chunk_size - chunk_overlap))

/-- Modelled from the spec: entry point of the hard-cut chunker, see
hardChunkGo. -/
def hardChunk (chunk_size chunk_overlap : Nat) (text : Str) : List Str :=
  hardChunkGo chunk_size chunk_overlap text.length text

/-! Concrete sample values used by counterexamples and witnesses. -/

/-- The memory of a freshly constructed RAGManager with no index on disk. -/
def emptyMem : MemState := { model := false, index := none, documents := none, metadata := none }

/-- Sample chunk metadata. -/
def sMeta : ChunkMeta := { base := [("source_file", "f")], chunk_id := 0, chunk_size := 1 }

/-- Sample populated memory: one zero-dimension vector, one chunk text, one
metadata record. -/
def sState : MemState :=
  { model := true, index := some { dim := 0, vectors := [[]] },
    documents := some [['a']], metadata := some [sMeta] }

/-- Sample embedding model mapping every text to the empty vector. -/
def sEnc : Str → List ℚ := fun _ => []

/-- The query result sState yields for any query under sEnc. -/
def sResult : QueryResult :=
  { content := ['a'], metadata := sMeta, relevance_score := 0, source := "f" }

/-- Sample documents-directory file. -/
def sFile : FileEntry :=
  { path := "docs/a.md", name := "a.md", ext := ".md", content := ['h'], readable := true }

/-- Sample splitter producing a single chunk equal to the whole text. -/
def sSplit : Str → List Str := fun s => [s]

/-- Sample prior disk artifact. -/
def sDisk : Disk :=
  { index_file := some { dim := 3, vectors := [[1], [2]] }, docs_file := some (some [['x']]),
    meta_file := some (some []) }

/-- Sample memory whose loaded index holds zero chunks. -/
def zeroState : MemState :=
  { model := false, index := some { dim := 0, vectors := [] },
    documents := some [], metadata := some [] }

/-- Sample splitter that, like the langchain splitter, produces no chunks for
empty text and one chunk otherwise. -/
def sSplitEmptyAware : Str → List Str := fun s => if s = [] then [] else [s]

/-! Helper lemmas. -/

/-- Loading the embeddings model never changes index, documents or metadata. -/
theorem load_model_fields (mOk : Bool) (st st1 : MemState)
    (h : RAGManager._load_embeddings_model mOk st = .ok st1) :
    st1.index = st.index ∧ st1.documents = st.documents ∧ st1.metadata = st.metadata := by
  unfold RAGManager._load_embeddings_model at h
  split at h
  · cases h; exact ⟨rfl, rfl, rfl⟩
  · split at h
    · cases h; exact ⟨rfl, rfl, rfl⟩
    · cases h

/-- _load_or_initialize never changes the model field. -/
theorem load_or_init_model (loadOk : Bool) (d : Disk) (st : MemState) :
    (RAGManager._load_or_init loadOk d st).model = st.model := by
  unfold RAGManager._load_or_init
  split
  · split
    · split <;> rfl
    · rfl
  · rfl

/-- A successful index.add appends exactly the given vectors. -/
theorem add_some (i : FaissIndex) (vs : List (List ℚ)) (idx2 : FaissIndex)
    (h : FaissIndex.add i vs = some idx2) :
    idx2.vectors = i.vectors ++ vs ∧ idx2.dim = i.dim := by
  unfold FaissIndex.add at h
  split at h
  · cases h; exact ⟨rfl, rfl⟩
  · cases h

/-- The append loop of add_document_from_text grows both lists by the number
of chunks. -/
theorem appendLoop_lengths (base : List (String × String)) :
    ∀ (chunks ds : List Str) (ms : List ChunkMeta),
      (RAGManager.appendLoop base chunks ds ms).1.length = ds.length + chunks.length ∧
      (RAGManager.appendLoop base chunks ds ms).2.length = ms.length + chunks.length := by
  intro chunks
  induction chunks with
  | nil => intro ds ms; simp [RAGManager.appendLoop]
  | cons c rest ih =>
    intro ds ms
    have := ih (ds ++ [c])
      (ms ++ [{ base := base, chunk_id := ds.length, chunk_size := c.length }])
    simp [RAGManager.appendLoop] at this ⊢
    omega

/-- Every result kept by the formatting loop carries a distance strictly
below the threshold. -/
theorem formatResults_ok_scores (documents : List Str) (mdata : Option (List ChunkMeta))
    (thr : ℚ) : ∀ (pairs : List (ℚ × Int)) (rs : List QueryResult),
      RAGManager.formatResults documents mdata thr pairs = .ok rs →
      ∀ r ∈ rs, r.relevance_score < thr := by
  intro pairs
  induction pairs with
  | nil =>
    intro rs h r hr
    simp only [RAGManager.formatResults] at h
    cases h
    cases hr
  | cons p rest ih =>
    intro rs h
    obtain ⟨distance, idx⟩ := p
    simp only [RAGManager.formatResults] at h
    split at h
    · rename_i hcond
      cases hm : mdata with
      | none =>
        subst hm
        rcases hg : pyGet documents idx with _ | c <;> simp [hg] at h
      | some ms =>
        subst hm
        cases hg1 : pyGet documents idx with
        | none => simp only [hg1] at h; cases h
        | some content =>
          simp only [hg1] at h
          cases hg2 : pyGet ms idx with
          | none => simp only [hg2] at h; cases h
          | some md =>
            simp only [hg2] at h
            cases hrec : RAGManager.formatResults documents (some ms) thr rest with
            | error e => simp only [hrec] at h; cases h
            | ok rs2 =>
              simp only [hrec] at h
              injection h with h2
              subst h2
              intro r hr
              rw [List.mem_cons] at hr
              rcases hr with rfl | hr
              · exact hcond.2
              · exact ih rs2 hrec r hr
    · exact ih rs h

/-- The formatting loop never returns more results than search pairs. -/
theorem formatResults_length_le (documents : List Str) (mdata : Option (List ChunkMeta))
    (thr : ℚ) : ∀ (pairs : List (ℚ × Int)) (rs : List QueryResult),
      RAGManager.formatResults documents mdata thr pairs = .ok rs →
      rs.length ≤ pairs.length := by
  intro pairs
  induction pairs with
  | nil =>
    intro rs h
    simp only [RAGManager.formatResults] at h
    cases h
    simp
  | cons p rest ih =>
    intro rs h
    obtain ⟨distance, idx⟩ := p
    simp only [RAGManager.formatResults] at h
    split at h
    · cases hm : mdata with
      | none =>
        subst hm
        rcases hg : pyGet documents idx with _ | c <;> simp [hg] at h
      | some ms =>
        subst hm
        cases hg1 : pyGet documents idx with
        | none => simp only [hg1] at h; cases h
        | some content =>
          simp only [hg1] at h
          cases hg2 : pyGet ms idx with
          | none => simp only [hg2] at h; cases h
          | some md =>
            simp only [hg2] at h
            cases hrec : RAGManager.formatResults documents (some ms) thr rest with
            | error e => simp only [hrec] at h; cases h
            | ok rs2 =>
              simp only [hrec] at h
              cases h
              have := ih rs2 hrec
              simp
              omega
    · have := ih rs h
      simp
      omega

/-- insertByDist grows the list by one. -/
theorem insertByDist_length (p : ℚ × Int) :
    ∀ l : List (ℚ × Int), (insertByDist p l).length = l.length + 1 := by
  intro l
  induction l with
  | nil => rfl
  | cons q rest ih =>
    simp only [insertByDist]
    split
    · simp
    · simp [ih]

/-- Sorting by repeated insertion preserves length. -/
theorem foldl_insert_length (l : List (ℚ × Int)) :
    ∀ acc : List (ℚ × Int),
      (l.foldl (fun acc p => insertByDist p acc) acc).length = acc.length + l.length := by
  induction l with
  | nil => intro acc; simp
  | cons p rest ih =>
    intro acc
    simp only [List.foldl_cons, List.length_cons]
    rw [ih]
    rw [insertByDist_length]
    omega

/-- faiss search always returns exactly k (distance, label) pairs, padding
with (FLT_MAX, -1) when the index holds fewer than k vectors. -/
theorem faissSearch_length (idx : FaissIndex) (q : List ℚ) (k : Nat) :
    (faissSearch idx q k).length = k := by
  unfold faissSearch
  simp only [List.length_append, List.length_take, List.length_replicate,
    foldl_insert_length, List.length_map, List.enum_length, List.length_nil]
  omega

/-- search_relevant_content returns at most k results. -/
theorem search_length_le (enc : Str → List ℚ) (mOk : Bool) (st : MemState)
    (query : Str) (k : Nat) (category : Option Str) (thr : ℚ) :
    (RAGManager.search_relevant_content enc mOk st query k category thr).1.length ≤ k := by
  unfold RAGManager.search_relevant_content
  split
  · split
    · simp
    · dsimp only
      split
      · split
        · rename_i rs heq
          have h1 := formatResults_length_le _ _ _ _ _ heq
          rw [faissSearch_length] at h1
          simpa using h1
        · simp
      · simp
  · simp

/-- The texts kept by the context-assembly loop sum to at most the budget
plus the ellipsis marker. -/
theorem buildParts_sum (max_context_length : Nat) :
    ∀ (docs : List Str) (current_length : Nat), current_length ≤ max_context_length →
      ((RAGManager.buildParts max_context_length current_length docs).map List.length).sum
        + current_length ≤ max_context_length + RAGManager.ellipsis.length := by
  intro docs
  induction docs with
  | nil =>
    intro cur h
    simp only [RAGManager.buildParts, List.map_nil, List.sum_nil, Nat.zero_add]
    exact le_trans h (Nat.le_add_right _ _)
  | cons content rest ih =>
    intro cur h
    simp only [RAGManager.buildParts]
    split
    · rename_i hgt
      split
      · rename_i hrem
        simp only [List.map_cons, List.map_nil, List.sum_cons, List.sum_nil,
          List.length_append, List.length_take]
        omega
      · simp only [List.map_nil, List.sum_nil]
        omega
    · rename_i hle
      simp only [List.map_cons, List.sum_cons]
      have := ih (cur + content.length) (by omega)
      omega

/-- The context-assembly loop keeps at most one part per search result. -/
theorem buildParts_length_le (max_context_length : Nat) :
    ∀ (docs : List Str) (current_length : Nat),
      (RAGManager.buildParts max_context_length current_length docs).length ≤ docs.length := by
  intro docs
  induction docs with
  | nil => intro cur; simp [RAGManager.buildParts]
  | cons c rest ih =>
    intro cur
    simp only [RAGManager.buildParts]
    split
    · split <;> simp
    · simp only [List.length_cons]
      exact Nat.succ_le_succ (ih _)

/-- str.join length: the parts plus one separator between consecutive parts. -/
theorem joinParts_length (sep : Str) : ∀ (p : Str) (parts : List Str),
    (RAGManager.joinParts sep (p :: parts)).length =
      ((p :: parts).map List.length).sum + sep.length * parts.length := by
  intro p parts
  induction parts generalizing p with
  | nil => simp [RAGManager.joinParts]
  | cons q rest ih =>
    have ihq := ih q
    simp only [RAGManager.joinParts, List.length_append, List.map_cons, List.sum_cons,
      List.length_cons] at ihq ⊢
    rw [Nat.mul_succ]
    omega

/-- Length bound for the assembled context string before the header. -/
theorem joinParts_buildParts_le (max_context_length : Nat) (docs : List Str)
    (hd : docs.length ≤ 3) :
    (RAGManager.joinParts RAGManager.delimiter
        (RAGManager.buildParts max_context_length 0 docs)).length ≤
      max_context_length + RAGManager.ellipsis.length + RAGManager.delimiter.length * 2 := by
  cases hp : RAGManager.buildParts max_context_length 0 docs with
  | nil => simp [RAGManager.joinParts]
  | cons p parts =>
    rw [joinParts_length]
    have hsum := buildParts_sum max_context_length docs 0 (Nat.zero_le _)
    rw [hp] at hsum
    have hlen := buildParts_length_le max_context_length docs 0
    rw [hp] at hlen
    have hmul : RAGManager.delimiter.length * parts.length ≤ RAGManager.delimiter.length * 2 :=
      Nat.mul_le_mul_left _ (by simp at hlen; omega)
    simp only [List.map_cons, List.sum_cons] at hsum ⊢
    omega

/-- Searches against an absent index, or one whose loaded corpus holds zero
chunks, return the empty list (rag_manager.py lines 260-262). -/
theorem search_empty_state (enc : Str → List ℚ) (mOk : Bool) (query : Str) (k : Nat)
    (category : Option Str) (thr : ℚ) (st : MemState)
    (h : st.index = none ∨ (coIndexed st = true ∧ st.index.map FaissIndex.count = some 0)) :
    (RAGManager.search_relevant_content enc mOk st query k category thr).1 = [] := by
  rcases h with hidx | ⟨hco, hcount⟩
  · simp [RAGManager.search_relevant_content, hidx]
  · unfold coIndexed at hco
    split at hco
    · rename_i i ds ms heq1 heq2 heq3
      rw [heq1] at hcount
      have hcz : FaissIndex.count i = 0 := by simpa using hcount
      simp only [Bool.and_eq_true, beq_iff_eq] at hco
      have hds : ds = [] := List.eq_nil_of_length_eq_zero (by omega)
      subst hds
      simp [RAGManager.search_relevant_content, heq1, heq2]
    · cases hco

/-- C2 counterexample: the claim says construction succeeds when the
embedding library is missing; in the code, __init__ raises ImportError at
construction (rag_manager.py lines 58-60), shown here at a concrete disk
state. -/
theorem init_missing_faiss_raises_cex :
    RAGManager.__init__ false true sDisk = Except.error RAGManager.InitError.importError := rfl

/-- C2 amended: constructing a RAGManager raises ImportError exactly when the
faiss / sentence-transformers import failed; when the import succeeded,
construction succeeds and does not load the embedding model (self.model stays
None until the first operation that embeds). -/
theorem init_import_check_at_construction (loadOk : Bool) (d : Disk) :
    RAGManager.__init__ false loadOk d = Except.error RAGManager.InitError.importError ∧
    ∃ st, RAGManager.__init__ true loadOk d = Except.ok st ∧ st.model = false := by
  refine ⟨rfl, _, rfl, ?_⟩
  exact load_or_init_model loadOk d _

/-- C6: saving a populated state and loading it back restores the identical
index (hence identical count) and the identical chunk-text and metadata
collections, in content and order. -/
theorem save_load_roundtrip (st st0 : MemState) (d : Disk) (i : FaissIndex)
    (ds : List Str) (ms : List ChunkMeta) (h1 : st.index = some i)
    (h2 : st.documents = some ds) (h3 : st.metadata = some ms) (h4 : ds ≠ []) :
    (RAGManager._load_or_init true (RAGManager._save_index ⟨true, true, true⟩ st d) st0).index
        = some i ∧
    (RAGManager._load_or_init true (RAGManager._save_index ⟨true, true, true⟩ st d) st0).documents
        = some ds ∧
    (RAGManager._load_or_init true (RAGManager._save_index ⟨true, true, true⟩ st d) st0).metadata
        = some ms := by
  have hs : RAGManager._save_index ⟨true, true, true⟩ st d =
      { index_file := some i, docs_file := some (some ds), meta_file := some (some ms) } := by
    simp [RAGManager._save_index, h1, h2, h3]
  rw [hs]
  simp [RAGManager._load_or_init]

/-- C6 witness at a concrete populated state. -/
theorem save_load_roundtrip_witness :
    (sState.index = some { dim := 0, vectors := [[]] } ∧ sState.documents = some [['a']] ∧
     sState.metadata = some [sMeta] ∧ ([['a']] : List Str) ≠ []) ∧
    ((RAGManager._load_or_init true
        (RAGManager._save_index ⟨true, true, true⟩ sState sDisk) emptyMem).index
          = some { dim := 0, vectors := [[]] } ∧
     (RAGManager._load_or_init true
        (RAGManager._save_index ⟨true, true, true⟩ sState sDisk) emptyMem).documents
          = some [['a']] ∧
     (RAGManager._load_or_init true
        (RAGManager._save_index ⟨true, true, true⟩ sState sDisk) emptyMem).metadata
          = some [sMeta]) :=
  ⟨⟨rfl, rfl, rfl, by decide⟩,
   save_load_roundtrip sState emptyMem sDisk _ _ _ rfl rfl rfl (by decide)⟩

/-- C7: when the documents directory yields no loadable documents,
index_documents reports failure and leaves the in-memory index, chunk texts
and metadata, and the persisted artifacts, unchanged. -/
theorem empty_corpus_rebuild_fails_unchanged (split : Str → List Str) (enc : Str → List ℚ)
    (mOk dE : Bool) (files : List FileEntry) (w : SaveFlags) (st : MemState) (d : Disk)
    (h : RAGManager.load_documents dE files = []) :
    (RAGManager.index_documents split enc mOk dE files w st d).1 = false ∧
    (RAGManager.index_documents split enc mOk dE files w st d).2.1.index = st.index ∧
    (RAGManager.index_documents split enc mOk dE files w st d).2.1.documents = st.documents ∧
    (RAGManager.index_documents split enc mOk dE files w st d).2.1.metadata = st.metadata ∧
    (RAGManager.index_documents split enc mOk dE files w st d).2.2 = d := by
  cases hm : RAGManager._load_embeddings_model mOk st with
  | error e => simp [RAGManager.index_documents, hm]
  | ok st1 =>
    obtain ⟨hi, hd2, hmd⟩ := load_model_fields mOk st st1 hm
    simp [RAGManager.index_documents, hm, h, hi, hd2, hmd]

/-- C7 witness: an empty directory listing over a populated prior state and a
prior disk artifact. -/
theorem empty_corpus_rebuild_witness :
    RAGManager.load_documents true [] = [] ∧
    ((RAGManager.index_documents sSplit sEnc true true [] ⟨true, true, true⟩ sState sDisk).1
        = false ∧
     (RAGManager.index_documents sSplit sEnc true true [] ⟨true, true, true⟩ sState sDisk).2.1.index
        = sState.index ∧
     (RAGManager.index_documents sSplit sEnc true true [] ⟨true, true, true⟩ sState
        sDisk).2.1.documents = sState.documents ∧
     (RAGManager.index_documents sSplit sEnc true true [] ⟨true, true, true⟩ sState
        sDisk).2.1.metadata = sState.metadata ∧
     (RAGManager.index_documents sSplit sEnc true true [] ⟨true, true, true⟩ sState sDisk).2.2
        = sDisk) :=
  ⟨rfl, empty_corpus_rebuild_fails_unchanged sSplit sEnc true true [] ⟨true, true, true⟩
    sState sDisk rfl⟩

/-- C9: with no index loaded, or a loaded index holding zero chunks,
search_relevant_content returns the empty list and get_context_for_query
returns the empty string, neither raising an error. -/
theorem empty_index_empty_results (enc : Str → List ℚ) (mOk : Bool) (st : MemState)
    (query : Str) (k : Nat) (category : Option Str) (thr : ℚ) (maxLen : Nat)
    (h : st.index = none ∨ (coIndexed st = true ∧ st.index.map FaissIndex.count = some 0)) :
    (RAGManager.search_relevant_content enc mOk st query k category thr).1 = [] ∧
    (RAGManager.get_context_for_query enc mOk st query category maxLen).1 = [] := by
  refine ⟨search_empty_state enc mOk query k category thr st h, ?_⟩
  unfold RAGManager.get_context_for_query
  dsimp only
  rw [search_empty_state enc mOk query 3 category relevanceThreshold12 st h]
  simp

/-- C9 witness: a loaded index with zero chunks. -/
theorem empty_index_empty_results_witness :
    (coIndexed zeroState = true ∧ zeroState.index.map FaissIndex.count = some 0) ∧
    ((RAGManager.search_relevant_content sEnc true zeroState ['q'] 3 none 1).1 = [] ∧
     (RAGManager.get_context_for_query sEnc true zeroState ['q'] none 2000).1 = []) :=
  ⟨⟨by decide, by decide⟩,
   empty_index_empty_results sEnc true zeroState ['q'] 3 none 1 2000
     (Or.inr ⟨by decide, by decide⟩)⟩

/-- C10: a text whose chunking produces zero chunks makes
add_document_from_text return False with the memory and disk exactly
unchanged (rag_manager.py lines 373-376 run before any mutation). -/
theorem zero_chunks_add_noop (split : Str → List Str) (enc : Str → List ℚ) (mOk : Bool)
    (w : SaveFlags) (text : Str) (mdata : Option (List (String × String)))
    (st : MemState) (d : Disk) (h : split text = []) :
    RAGManager.add_document_from_text split enc mOk w text mdata st d = (false, st, d) := by
  unfold RAGManager.add_document_from_text
  simp only [h]

/-- C10 witness: the empty text under a splitter that yields no chunks for
it, over a populated state. -/
theorem zero_chunks_add_noop_witness :
    sSplitEmptyAware [] = [] ∧
    RAGManager.add_document_from_text sSplitEmptyAware sEnc true ⟨true, true, true⟩ [] none
      sState sDisk = (false, sState, sDisk) :=
  ⟨rfl, zero_chunks_add_noop sSplitEmptyAware sEnc true ⟨true, true, true⟩ [] none
    sState sDisk rfl⟩

/-- C4: every element returned by search_relevant_content has
relevance_score strictly below the supplied threshold, for any state, query
and k (rag_manager.py line 283). -/
theorem search_results_below_threshold (enc : Str → List ℚ) (mOk : Bool) (st : MemState)
    (query : Str) (k : Nat) (category : Option Str) (thr : ℚ) (r : QueryResult)
    (hr : r ∈ (RAGManager.search_relevant_content enc mOk st query k category thr).1) :
    r.relevance_score < thr := by
  unfold RAGManager.search_relevant_content at hr
  split at hr
  · split at hr
    · simp at hr
    · dsimp only at hr
      split at hr
      · split at hr
        · rename_i rs heq
          dsimp only at hr
          exact formatResults_ok_scores _ _ _ _ _ heq r hr
        · simp at hr
      · simp at hr
  · simp at hr

/-- C4 witness: a populated state where the search returns a result with
distance 0 under threshold 1. -/
theorem search_results_below_threshold_witness :
    sResult ∈ (RAGManager.search_relevant_content sEnc true sState [] 1 none 1).1 ∧
    sResult.relevance_score < 1 :=
  ⟨by decide, search_results_below_threshold sEnc true sState [] 1 none 1 sResult (by decide)⟩

/-- C1 counterexample: with one included result text of one character and
max_context_length = 1, the returned string has 48 characters, exceeding the
claimed bound of max_context_length plus the truncation marker plus the
delimiters (at most 1 + 3 + 7 * 2 even reading the claim generously), because
the code prepends a fixed 47-character header (rag_manager.py line 348). -/
theorem context_length_exceeds_claim_cex :
    (RAGManager.get_context_for_query sEnc true sState [] none 1).1.length = 48 ∧
    ¬((RAGManager.get_context_for_query sEnc true sState [] none 1).1.length ≤
        1 + RAGManager.ellipsis.length + RAGManager.delimiter.length * 2) :=
  ⟨by decide, by decide⟩

/-- C1 amended: the length of the string returned by get_context_for_query
is at most max_context_length plus the truncation marker, plus one delimiter
between each pair of the at most three included texts, plus additionally the
length of the fixed header the code prepends to any non-empty context. -/
theorem context_length_bounded_with_header (enc : Str → List ℚ) (mOk : Bool) (st : MemState)
    (query : Str) (category : Option Str) (max_context_length : Nat) :
    (RAGManager.get_context_for_query enc mOk st query category max_context_length).1.length ≤
      RAGManager.header.length + (max_context_length + RAGManager.ellipsis.length +
        RAGManager.delimiter.length * 2) := by
  unfold RAGManager.get_context_for_query
  dsimp only
  split
  · simp
  · split
    · simp
    · simp only [List.length_append]
      have hk := search_length_le enc mOk st query 3 category relevanceThreshold12
      have hb := joinParts_buildParts_le max_context_length
        ((RAGManager.search_relevant_content enc mOk st query 3 category
            relevanceThreshold12).1.map fun doc => pyStrip doc.content)
        (by simpa using hk)
      omega

/-- index_documents reports the same flag and reaches the same memory no
matter whether the disk writes succeed: _save_index swallows its errors. -/
theorem index_documents_save_indep (split : Str → List Str) (enc : Str → List ℚ)
    (mOk dE : Bool) (files : List FileEntry) (w w' : SaveFlags) (st : MemState)
    (d d' : Disk) :
    (RAGManager.index_documents split enc mOk dE files w st d).1 =
      (RAGManager.index_documents split enc mOk dE files w' st d').1 ∧
    (RAGManager.index_documents split enc mOk dE files w st d).2.1 =
      (RAGManager.index_documents split enc mOk dE files w' st d').2.1 := by
  cases hm : RAGManager._load_embeddings_model mOk st with
  | error e => simp [RAGManager.index_documents, hm]
  | ok st1 =>
    by_cases hd : (RAGManager.load_documents dE files).isEmpty
    · simp [RAGManager.index_documents, hm, hd]
    · cases ht : List.map Prod.fst ((RAGManager.load_documents dE files).flatMap
          fun doc => (split doc.page_content).map fun c => (c, doc)) with
      | nil => simp [RAGManager.index_documents, hm, hd, ht]
      | cons t0 ts =>
        cases ha : (IndexFlatL2 (enc t0).length).add (enc t0 :: List.map enc ts) with
        | none => simp [RAGManager.index_documents, hm, hd, ht, ha]
        | some idx => simp [RAGManager.index_documents, hm, hd, ht, ha]

/-- add_document_from_text reports the same flag and reaches the same memory
no matter whether the disk writes succeed. -/
theorem add_document_save_indep (split : Str → List Str) (enc : Str → List ℚ)
    (mOk : Bool) (w w' : SaveFlags) (text : Str) (mdata : Option (List (String × String)))
    (st : MemState) (d d' : Disk) :
    (RAGManager.add_document_from_text split enc mOk w text mdata st d).1 =
      (RAGManager.add_document_from_text split enc mOk w' text mdata st d').1 ∧
    (RAGManager.add_document_from_text split enc mOk w text mdata st d).2.1 =
      (RAGManager.add_document_from_text split enc mOk w' text mdata st d').2.1 := by
  cases hs : split text with
  | nil => simp [RAGManager.add_document_from_text, hs]
  | cons c0 crest =>
    cases hm : RAGManager._load_embeddings_model mOk st with
    | error e => simp [RAGManager.add_document_from_text, hs, hm]
    | ok st1 =>
      cases hi : st1.index with
      | none =>
        cases ha : (IndexFlatL2 (enc c0).length).add (enc c0 :: List.map enc crest) with
        | none => simp [RAGManager.add_document_from_text, hs, hm, hi, ha]
        | some idx2 => simp [RAGManager.add_document_from_text, hs, hm, hi, ha]
      | some idx0 =>
        cases ha : idx0.add (enc c0 :: List.map enc crest) with
        | none => simp [RAGManager.add_document_from_text, hs, hm, hi, ha]
        | some idx2 =>
          cases hdoc : st1.documents with
          | none => simp [RAGManager.add_document_from_text, hs, hm, hi, ha, hdoc]
          | some ds =>
            cases hmd : st1.metadata with
            | none => simp [RAGManager.add_document_from_text, hs, hm, hi, ha, hdoc, hmd]
            | some ms => simp [RAGManager.add_document_from_text, hs, hm, hi, ha, hdoc, hmd]

/-- C3 amended: a failed disk write during persistence is caught and logged
inside _save_index; the mutation still reports whatever it would with a
healthy disk (True on the success path, not failure), and the in-memory
index, chunk texts and metadata are exactly the post-mutation state from
immediately before the failed save. -/
theorem save_failure_swallowed_state_kept (split : Str → List Str) (enc : Str → List ℚ)
    (mOk dE : Bool) (files : List FileEntry) (w w' : SaveFlags) (text : Str)
    (mdata : Option (List (String × String))) (st : MemState) (d d' : Disk) :
    ((RAGManager.index_documents split enc mOk dE files w st d).1 =
        (RAGManager.index_documents split enc mOk dE files w' st d').1 ∧
     (RAGManager.index_documents split enc mOk dE files w st d).2.1 =
        (RAGManager.index_documents split enc mOk dE files w' st d').2.1) ∧
    ((RAGManager.add_document_from_text split enc mOk w text mdata st d).1 =
        (RAGManager.add_document_from_text split enc mOk w' text mdata st d').1 ∧
     (RAGManager.add_document_from_text split enc mOk w text mdata st d).2.1 =
        (RAGManager.add_document_from_text split enc mOk w' text mdata st d').2.1) :=
  ⟨index_documents_save_indep split enc mOk dE files w w' st d d',
   add_document_save_indep split enc mOk w w' text mdata st d d'⟩

/-- C3 counterexample: with every disk write failing, index_documents still
returns True (the claim says it reports failure); the disk is left exactly as
it was, so the save certainly did not happen. -/
theorem save_failure_still_reports_success_cex :
    (RAGManager.index_documents sSplit sEnc true true [sFile] ⟨false, false, false⟩
        emptyMem sDisk).1 = true ∧
    (RAGManager.index_documents sSplit sEnc true true [sFile] ⟨false, false, false⟩
        emptyMem sDisk).2.2 = sDisk :=
  ⟨by decide, by decide⟩

/-- A successful full rebuild establishes the co-indexing invariant. -/
theorem index_documents_coIndexed (split : Str → List Str) (enc : Str → List ℚ)
    (mOk dE : Bool) (files : List FileEntry) (w : SaveFlags) (st : MemState) (d : Disk)
    (h : (RAGManager.index_documents split enc mOk dE files w st d).1 = true) :
    coIndexed (RAGManager.index_documents split enc mOk dE files w st d).2.1 = true := by
  cases hm : RAGManager._load_embeddings_model mOk st with
  | error e => simp [RAGManager.index_documents, hm] at h
  | ok st1 =>
    by_cases hd : (RAGManager.load_documents dE files).isEmpty
    · simp [RAGManager.index_documents, hm, hd] at h
    · cases ht : List.map Prod.fst ((RAGManager.load_documents dE files).flatMap
          fun doc => (split doc.page_content).map fun c => (c, doc)) with
      | nil => simp [RAGManager.index_documents, hm, hd, ht] at h
      | cons t0 ts =>
        cases ha : (IndexFlatL2 (enc t0).length).add (enc t0 :: List.map enc ts) with
        | none => simp [RAGManager.index_documents, hm, hd, ht, ha] at h
        | some idx =>
          obtain ⟨hv, hdim⟩ := add_some _ _ _ ha
          simp only [IndexFlatL2, List.nil_append] at hv
          have hchunks : ((RAGManager.load_documents dE files).flatMap
              fun doc => (split doc.page_content).map fun c => (c, doc)).length
              = ts.length + 1 := by
            have hlen := congrArg List.length ht
            simpa using hlen
          simp [RAGManager.index_documents, hm, hd, ht, ha, coIndexed, FaissIndex.count,
            hv, hchunks]

/-- A successful incremental append preserves the co-indexing invariant
(the fresh-index branch establishes it outright). -/
theorem add_document_coIndexed (split : Str → List Str) (enc : Str → List ℚ) (mOk : Bool)
    (w : SaveFlags) (text : Str) (mdata : Option (List (String × String)))
    (st : MemState) (d : Disk)
    (hpre : st.index = none ∨ coIndexed st = true)
    (h : (RAGManager.add_document_from_text split enc mOk w text mdata st d).1 = true) :
    coIndexed (RAGManager.add_document_from_text split enc mOk w text mdata st d).2.1
      = true := by
  cases hs : split text with
  | nil => simp [RAGManager.add_document_from_text, hs] at h
  | cons c0 crest =>
    cases hm : RAGManager._load_embeddings_model mOk st with
    | error e => simp [RAGManager.add_document_from_text, hs, hm] at h
    | ok st1 =>
      obtain ⟨hfi, hfd, hfm⟩ := load_model_fields mOk st st1 hm
      cases hi : st1.index with
      | none =>
        cases ha : (IndexFlatL2 (enc c0).length).add (enc c0 :: List.map enc crest) with
        | none => simp [RAGManager.add_document_from_text, hs, hm, hi, ha] at h
        | some idx2 =>
          obtain ⟨hv, hdim⟩ := add_some _ _ _ ha
          simp only [IndexFlatL2, List.nil_append] at hv
          have hap := appendLoop_lengths (mdata.getD []) (c0 :: crest) [] []
          simp [RAGManager.add_document_from_text, hs, hm, hi, ha, coIndexed,
            FaissIndex.count, hv, hap.1, hap.2]
      | some idx0 =>
        rcases hpre with hnone | hco
        · rw [hfi, hnone] at hi
          cases hi
        · unfold coIndexed at hco
          split at hco
          · rename_i i ds0 ms0 heq1 heq2 heq3
            simp only [Bool.and_eq_true, beq_iff_eq] at hco
            have hii : idx0 = i := by
              rw [hfi, heq1] at hi
              injection hi with hi2
              exact hi2.symm
            subst hii
            have hd1 : st1.documents = some ds0 := hfd.trans heq2
            have hm1 : st1.metadata = some ms0 := hfm.trans heq3
            cases ha : idx0.add (enc c0 :: List.map enc crest) with
            | none => simp [RAGManager.add_document_from_text, hs, hm, hi, ha] at h
            | some idx2 =>
              obtain ⟨hv, hdim⟩ := add_some _ _ _ ha
              have hap := appendLoop_lengths (mdata.getD []) (c0 :: crest) ds0 ms0
              simp only [FaissIndex.count] at hco
              simp [RAGManager.add_document_from_text, hs, hm, hi, ha, hd1, hm1, coIndexed,
                FaissIndex.count, hv, hap.1, hap.2, Bool.and_eq_true, beq_iff_eq]
              omega
          · cases hco

/-- C5: after any successful mutation, the number of vectors in the index
equals the length of the chunk-text collection and the length of the
chunk-metadata collection.  For the incremental append the state must come
from the manager itself: either no index yet, or one already co-indexed. -/
theorem mutation_preserves_coindexing (split : Str → List Str) (enc : Str → List ℚ)
    (mOk dE : Bool) (files : List FileEntry) (w : SaveFlags) (st : MemState) (d : Disk)
    (text : Str) (mdata : Option (List (String × String)))
    (hpre : st.index = none ∨ coIndexed st = true) :
    ((RAGManager.index_documents split enc mOk dE files w st d).1 = true →
      coIndexed (RAGManager.index_documents split enc mOk dE files w st d).2.1 = true) ∧
    ((RAGManager.add_document_from_text split enc mOk w text mdata st d).1 = true →
      coIndexed (RAGManager.add_document_from_text split enc mOk w text mdata st d).2.1
        = true) :=
  ⟨fun h => index_documents_coIndexed split enc mOk dE files w st d h,
   fun h => add_document_coIndexed split enc mOk w text mdata st d hpre h⟩

/-- C5 witness: both mutations performed from the fresh empty state, with the
invariant evaluated on the concrete results. -/
theorem mutation_preserves_coindexing_witness :
    (emptyMem.index = none ∨ coIndexed emptyMem = true) ∧
    coIndexed (RAGManager.index_documents sSplit sEnc true true [sFile] ⟨true, true, true⟩
        emptyMem sDisk).2.1 = true ∧
    coIndexed (RAGManager.add_document_from_text sSplit sEnc true ⟨true, true, true⟩ ['h']
        none emptyMem sDisk).2.1 = true :=
  ⟨Or.inl rfl,
   (mutation_preserves_coindexing sSplit sEnc true true [sFile] ⟨true, true, true⟩ emptyMem
      sDisk ['h'] none (Or.inl rfl)).1 (by decide),
   (mutation_preserves_coindexing sSplit sEnc true true [sFile] ⟨true, true, true⟩ emptyMem
      sDisk ['h'] none (Or.inl rfl)).2 (by decide)⟩

/-- Unfolding equation of the fuelled chunker. -/
theorem hardChunkGo_succ (cs co fuel : Nat) (t : Str) :
    hardChunkGo cs co (fuel + 1) t =
      if t.length ≤ cs ∨ cs ≤ co then [t]
      else t.take cs :: hardChunkGo cs co fuel (t.drop (cs - co)) := rfl

/-- On any 120-character text the hard-cut chunker with size 50 and overlap
10 produces exactly the three slices [0,50), [40,90), [80,120). -/
theorem hardChunk_120 (t : Str) (h : t.length = 120) :
    hardChunk 50 10 t = [t.take 50, (t.drop 40).take 50, t.drop 80] := by
  have h40 : (t.drop 40).length = 80 := by simp [h]
  unfold hardChunk
  rw [h]
  rw [show (120 : Nat) = 119 + 1 from rfl, hardChunkGo_succ,
    if_neg (by rw [h]; decide)]
  rw [show (119 : Nat) = 118 + 1 from rfl, hardChunkGo_succ,
    if_neg (by rw [h40]; decide)]
  rw [show (118 : Nat) = 117 + 1 from rfl, hardChunkGo_succ]
  rw [List.drop_drop]
  rw [if_pos (Or.inl (by simp [h]))]

/-- C8 counterexample: a 120-character document chunked with size 50 and
overlap 10 yields chunk lengths 50, 50, 40 — the third chunk is 40
characters (it starts 10 before the end of the second chunk, at offset 80),
not the 30 the claim states. -/
theorem chunk_120_lengths_cex :
    (List.replicate 120 'a').length = 120 ∧
    (hardChunk 50 10 (List.replicate 120 'a')).map List.length = [50, 50, 40] ∧
    (hardChunk 50 10 (List.replicate 120 'a')).map List.length ≠ [50, 50, 30] := by
  refine ⟨by decide, ?_, ?_⟩
  · rw [hardChunk_120 _ (by decide)]
    decide
  · rw [hardChunk_120 _ (by decide)]
    decide

/-- C8 amended: chunking any separator-free document of exactly 120
characters with chunk_size 50 and chunk_overlap 10 produces exactly 3 chunks
of lengths 50, 50 and 40, where every chunk after the first has its first 10
characters equal to the previous chunk's last 10 characters. -/
theorem chunk_120_amended (t : Str) (h : t.length = 120) :
    ∃ c1 c2 c3, hardChunk 50 10 t = [c1, c2, c3] ∧
      c1.length = 50 ∧ c2.length = 50 ∧ c3.length = 40 ∧
      c2.take 10 = c1.drop (c1.length - 10) ∧ c3.take 10 = c2.drop (c2.length - 10) := by
  refine ⟨t.take 50, (t.drop 40).take 50, t.drop 80, hardChunk_120 t h, ?_, ?_, ?_, ?_, ?_⟩
  · simp [h]
  · simp [h]
  · simp [h]
  · have hl : (t.take 50).length = 50 := by simp [h]
    rw [hl]
    rw [List.take_take]
    rw [List.drop_take]
    norm_num
  · have hl : ((t.drop 40).take 50).length = 50 := by simp [h]
    rw [hl]
    rw [List.drop_take, List.drop_drop]

/-- C8 witness: the amended chunking property at a concrete 120-character
document. -/
theorem chunk_120_amended_witness :
    (List.replicate 120 'a').length = 120 ∧
    (∃ c1 c2 c3, hardChunk 50 10 (List.replicate 120 'a') = [c1, c2, c3] ∧
      c1.length = 50 ∧ c2.length = 50 ∧ c3.length = 40 ∧
      c2.take 10 = c1.drop (c1.length - 10) ∧ c3.take 10 = c2.drop (c2.length - 10)) :=
  ⟨by decide, chunk_120_amended (List.replicate 120 'a') (by decide)⟩
